import Mathlib

/-!
Verification development for the `ai_pos` analytics engine
(`src/analysis.py`, `src/utils.py`).

Shallow embedding conventions:
* pandas DataFrames become `List` of record structures;
* money and other floats become `ℚ` (exact arithmetic; Python `round`
  is modelled by round-half-to-even, which is what CPython's `round`
  and numpy's `.round` implement on the exact value);
* identifiers (`product_id`, `product_name`, `transaction_id`) become
  `Nat` codes — the code only compares them for equality and sorts
  group keys, which a `Nat` encoding preserves;
* `date` strings are embedded already normalised to a day number
  (`ℤ`), matching `pd.to_datetime(...).dt.date`, on which the code
  only takes min/max/differences;
* pandas `sort_values` is modelled by Mathlib's stable
  `List.insertionSort`.  For a single sort key with `ascending=False`,
  pandas (`nargsort`, pandas ≥ 1.1: reverse the array, stable argsort,
  reverse the indexer) preserves the original order of ties, and for
  multiple keys `lexsort_indexer` inverts the codes of descending keys
  under a stable `np.lexsort`; both are therefore stable in the
  original row order, i.e. `insertionSort` with a `≥`-style relation.
  (`kind="quicksort"` argsort is numpy introsort, which is insertion
  sort — stable — on the short arrays relevant here.)
* `df.groupby(keys, as_index=False)` sorts the group keys ascending
  (`sort=True` default) and drops groups whose key contains a null;
* a raised-and-uncaught Python exception becomes an explicit error
  constructor.
-/

namespace AiPos

/-- Round half to even to an integer, the semantics of CPython's
`round` and numpy's `np.round` applied to the exact value. -/
def rhe (x : ℚ) : ℤ :=
  if x - ⌊x⌋ < 1/2 then ⌊x⌋
  else if 1/2 < x - ⌊x⌋ then ⌊x⌋ + 1
  else if ⌊x⌋ % 2 = 0 then ⌊x⌋ else ⌊x⌋ + 1

/-- Python `round(x, 2)` on the exact value. -/
def round2 (x : ℚ) : ℚ := (rhe (100 * x) : ℚ) / 100

/-- Python `round(x)` / pandas `.round(0)` on the exact value. -/
def round0 (x : ℚ) : ℚ := (rhe x : ℚ)

inductive PaymentType where
  | CARD
  | CASH
  deriving DecidableEq, Repr

/-- One row of the transactions table (schema `DEFAULT_SCHEMAS["tx"]`);
`day` is the `date` column already normalised to a day number. -/
structure TxRow where
  day : ℤ
  transaction_id : ℕ
  product_id : ℕ
  product_name : ℕ
  category : ℕ
  quantity : ℤ
  unit_price : ℚ
  gross_sales : ℚ
  discount : ℚ
  net_sales : ℚ
  tax : ℚ
  line_total : ℚ
  payment_type : PaymentType
  tip_amount : ℚ
  deriving DecidableEq, Repr

/-- One row of the refunds table (schema `DEFAULT_SCHEMAS["rf"]`). -/
structure Refund where
  original_transaction_id : ℕ
  refund_date : ℤ
  refund_amount : ℚ
  deriving DecidableEq, Repr

/-- One row of the payouts table (schema `DEFAULT_SCHEMAS["po"]`). -/
structure Payout where
  covering_sales_date : ℤ
  gross_card_volume : ℚ
  processor_fees : ℚ
  net_payout_amount : ℚ
  payout_date : ℤ
  deriving DecidableEq, Repr

/-- One row of the product master table (schema `DEFAULT_SCHEMAS["pm"]`). -/
structure Product where
  product_id : ℕ
  product_name : ℕ
  category : ℕ
  cogs : ℚ
  deriving DecidableEq, Repr

/-- One row of the enriched view built by `get_processed_data`:
the transaction row plus the left-joined `cogs` (`none` models the
`NaN` a row gets when its `product_id` has no product-master match). -/
structure ETxRow extends TxRow where
  cogs? : Option ℚ
  deriving DecidableEq, Repr

/-- `tx["gross_profit"]`: `quantity * (unit_price - cogs) - discount`;
`none` models the NaN propagated from a null `cogs`. -/
def ETxRow.gross_profit? (r : ETxRow) : Option ℚ :=
  r.cogs?.map (fun c => r.quantity * (r.unit_price - c) - r.discount)

/-- `get_processed_data`'s merge:
`transactions.merge(products[["product_id","cogs"]], on="product_id", how="left")`.
The product master has unique `product_id`s (spec §3), so the left
join is a first-match lookup. -/
def enrich (txs : List TxRow) (pm : List Product) : List ETxRow :=
  txs.map (fun r =>
    { r with cogs? := (pm.find? (fun p => p.product_id = r.product_id)).map Product.cogs })

/-- `(tx["day"].min())` for a nonempty table (junk `0` on empty,
never used there). -/
def dayMin : List ETxRow → ℤ
  | [] => 0
  | r :: rs => rs.foldl (fun m x => min m x.day) r.day

/-- `(tx["day"].max())` for a nonempty table (junk `0` on empty,
never used there). -/
def dayMax : List ETxRow → ℤ
  | [] => 0
  | r :: rs => rs.foldl (fun m x => max m x.day) r.day

/-- `days = (tx["day"].max() - tx["day"].min()).days + 1`. -/
def daysSpan (tx : List ETxRow) : ℤ := dayMax tx - dayMin tx + 1

theorem foldl_min_le_init (rs : List ETxRow) : ∀ m : ℤ,
    rs.foldl (fun m x => min m x.day) m ≤ m := by
  induction rs with
  | nil => intro m; simp
  | cons r rs ih =>
    intro m
    calc (r :: rs).foldl (fun m x => min m x.day) m
        = rs.foldl (fun m x => min m x.day) (min m r.day) := rfl
      _ ≤ min m r.day := ih _
      _ ≤ m := min_le_left _ _

theorem init_le_foldl_max (rs : List ETxRow) : ∀ m : ℤ,
    m ≤ rs.foldl (fun m x => max m x.day) m := by
  induction rs with
  | nil => intro m; simp
  | cons r rs ih =>
    intro m
    calc m ≤ max m r.day := le_max_left _ _
      _ ≤ rs.foldl (fun m x => max m x.day) (max m r.day) := ih _
      _ = (r :: rs).foldl (fun m x => max m x.day) m := rfl

theorem one_le_daysSpan {tx : List ETxRow} (h : tx ≠ []) : 1 ≤ daysSpan tx := by
  match tx, h with
  | r :: rs, _ =>
    have h1 : dayMin (r :: rs) ≤ r.day := foldl_min_le_init rs r.day
    have h2 : r.day ≤ dayMax (r :: rs) := init_le_foldl_max rs r.day
    have : dayMin (r :: rs) ≤ dayMax (r :: rs) := le_trans h1 h2
    simp only [daysSpan]
    omega

/-- Group key of `reorder_plan`'s
`groupby(["product_id","product_name","cogs"])`; rows whose left join
found no product have a null `cogs` and so no key (pandas drops
null-keyed groups). -/
structure SkuKey where
  product_id : ℕ
  product_name : ℕ
  cogs : ℚ
  deriving DecidableEq, Repr

/-- Ascending lexicographic order on group keys: pandas `groupby`
(`sort=True` default) returns groups sorted by key. -/
def SkuKey.le (a b : SkuKey) : Prop :=
  a.product_id < b.product_id ∨ (a.product_id = b.product_id ∧
    (a.product_name < b.product_name ∨ (a.product_name = b.product_name ∧ a.cogs ≤ b.cogs)))

instance : DecidableRel SkuKey.le := fun a b => by unfold SkuKey.le; exact inferInstance

def ETxRow.skuKey? (r : ETxRow) : Option SkuKey :=
  r.cogs?.map (fun c => ⟨r.product_id, r.product_name, c⟩)

/-- The distinct `(product_id, product_name, cogs)` keys of rows with a
non-null `cogs`, in pandas group order (sorted ascending). -/
def reorderKeys (tx : List ETxRow) : List SkuKey :=
  ((tx.filterMap ETxRow.skuKey?).dedup).insertionSort SkuKey.le

/-- One row of `sku_daily` in `reorder_plan`: per-SKU aggregates plus
the per-day rates. -/
structure SkuDaily where
  product_id : ℕ
  product_name : ℕ
  cogs : ℚ
  qty : ℤ
  gp : ℚ
  qty_per_day : ℚ
  gp_per_day : ℚ
  deriving DecidableEq, Repr

def skuRowsFor (tx : List ETxRow) (k : SkuKey) : List ETxRow :=
  tx.filter (fun r => decide (r.skuKey? = some k))

/-- One group's aggregation:
`agg(qty=("quantity","sum"), gp=("gross_profit","sum"))` followed by
`qty_per_day = qty / days`, `gp_per_day = gp / days`.  Every row of
the group carries `cogs? = some k.cogs`, so its `gross_profit` is the
formula below. -/
def mkSkuDaily (tx : List ETxRow) (days : ℚ) (k : SkuKey) : SkuDaily :=
  let rows := skuRowsFor tx k
  let qty : ℤ := (rows.map (·.quantity)).sum
  let gp : ℚ := (rows.map (fun r => r.quantity * (r.unit_price - k.cogs) - r.discount)).sum
  { product_id := k.product_id, product_name := k.product_name, cogs := k.cogs,
    qty := qty, gp := gp,
    qty_per_day := qty / days, gp_per_day := gp / days }

def sku_daily (tx : List ETxRow) : List SkuDaily :=
  (reorderKeys tx).map (mkSkuDaily tx (daysSpan tx : ℚ))

/-- `a` sorts no later than `b` under
`sort_values(["gp_per_day","qty_per_day"], ascending=False)`
(stable multi-key descending sort). -/
def rankGe (a b : SkuDaily) : Prop :=
  b.gp_per_day < a.gp_per_day ∨ (b.gp_per_day = a.gp_per_day ∧ b.qty_per_day ≤ a.qty_per_day)

instance : DecidableRel rankGe := fun a b => by unfold rankGe; exact inferInstance

/-- `sku_rank` of `reorder_plan`. -/
def sku_rank (tx : List ETxRow) : List SkuDaily :=
  (sku_daily tx).insertionSort rankGe

/-- One plan line appended by `reorder_plan`. -/
structure PlanLine where
  product_id : ℕ
  product_name : ℕ
  unit_cogs : ℚ
  suggested_qty : ℤ
  budget_spend : ℚ
  est_gp_uplift_week : ℚ
  deriving DecidableEq, Repr

/-- `sku_rank["cogs"].min()` (junk `0` on an empty ranking, where the
loop never reads it). -/
def minCogs : List SkuDaily → ℚ
  | [] => 0
  | s :: rest => rest.foldl (fun m x => min m x.cogs) s.cogs

/-- `buy_units = max(0, min(target_units, max_units_by_budget))` with
`target_units = max(1, ceil(qty_per_day * 5))` and
`max_units_by_budget = int(remaining // cogs)`. -/
def buyUnits (row : SkuDaily) (remaining : ℚ) : ℤ :=
  max 0 (min (max 1 ⌈row.qty_per_day * 5⌉) ⌊remaining / row.cogs⌋)

/-- The plan line `reorder_plan` appends for `row` when it buys
`buy` units. -/
def mkPlanLine (row : SkuDaily) (buy : ℤ) : PlanLine :=
  { product_id := row.product_id, product_name := row.product_name,
    unit_cogs := round2 row.cogs,
    suggested_qty := buy,
    budget_spend := round2 (buy * row.cogs),
    est_gp_uplift_week := round2 (buy * (row.gp / max 1 row.qty)) }

/-- The greedy loop of `reorder_plan`: skip `cogs <= 0` (the `continue`
also skips the break check), buy, then break once
`remaining < sku_rank["cogs"].min()`. -/
def reorderGo (minC : ℚ) : List SkuDaily → ℚ → List PlanLine → List PlanLine × ℚ
  | [], remaining, plan => (plan, remaining)
  | row :: rest, remaining, plan =>
    if row.cogs ≤ 0 then reorderGo minC rest remaining plan
    else
      let buy := buyUnits row remaining
      let remaining2 := if 0 < buy then remaining - buy * row.cogs else remaining
      let plan2 := if 0 < buy then plan ++ [mkPlanLine row buy] else plan
      if remaining2 < minC then (plan2, remaining2)
      else reorderGo minC rest remaining2 plan2

/-- `reorder_plan(budget)`: the `(plan, remaining)` pair (the AI/HTML
wrapping around it is out of scope). -/
def reorder_plan (tx : List ETxRow) (budget : ℚ) : List PlanLine × ℚ :=
  reorderGo (minCogs (sku_rank tx)) (sku_rank tx) budget []

/-- The same greedy pass run to completion over all ranked SKUs,
without the early exit (spec §4.5 step 5 comparison point). -/
def reorderGoNB : List SkuDaily → ℚ → List PlanLine → List PlanLine × ℚ
  | [], remaining, plan => (plan, remaining)
  | row :: rest, remaining, plan =>
    if row.cogs ≤ 0 then reorderGoNB rest remaining plan
    else
      let buy := buyUnits row remaining
      reorderGoNB rest
        (if 0 < buy then remaining - buy * row.cogs else remaining)
        (if 0 < buy then plan ++ [mkPlanLine row buy] else plan)

def reorder_plan_nobreak (tx : List ETxRow) (budget : ℚ) : List PlanLine × ℚ :=
  reorderGoNB (sku_rank tx) budget []

/-- The greedy pass exactly as the claim words it (spec §4.5 step 4):
buy `max(0, min(ceil(qty_per_day * 5), floor(remaining / cogs)))`, and
record the plan line with unrounded fields
`unit_cost = cogs`, `spend = qty * cogs`,
`estimated_weekly_profit_uplift = qty * (gp / qty_total)`.
Field correspondence to `PlanLine`: `unit_cost ↦ unit_cogs`,
`quantity ↦ suggested_qty`, `spend ↦ budget_spend`,
`estimated_weekly_profit_uplift ↦ est_gp_uplift_week`. -/
def specGo : List SkuDaily → ℚ → List PlanLine × ℚ
  | [], remaining => ([], remaining)
  | row :: rest, remaining =>
    if row.cogs ≤ 0 then specGo rest remaining
    else
      let buy : ℤ := max 0 (min ⌈row.qty_per_day * 5⌉ ⌊remaining / row.cogs⌋)
      if 0 < buy then
        let line : PlanLine :=
          { product_id := row.product_id, product_name := row.product_name,
            unit_cogs := row.cogs, suggested_qty := buy,
            budget_spend := buy * row.cogs,
            est_gp_uplift_week := buy * (row.gp / row.qty) }
        let res := specGo rest (remaining - buy * row.cogs)
        (line :: res.1, res.2)
      else specGo rest remaining

/-- The reorder plan exactly as claim C1 words it. -/
def spec_reorder_plan (tx : List ETxRow) (budget : ℚ) : List PlanLine × ℚ :=
  specGo (sku_rank tx) budget

/-- The amended greedy pass: as `specGo`, but the recorded plan-line
fields are rounded to 2 decimals (`unit_cost = round(cogs, 2)`,
`spend = round(qty * cogs, 2)`,
`uplift = round(qty * (gp / qty_total), 2)`), while `remaining` is
still decremented by the unrounded `qty * cogs`. -/
def specGoR : List SkuDaily → ℚ → List PlanLine × ℚ
  | [], remaining => ([], remaining)
  | row :: rest, remaining =>
    if row.cogs ≤ 0 then specGoR rest remaining
    else
      let buy : ℤ := max 0 (min ⌈row.qty_per_day * 5⌉ ⌊remaining / row.cogs⌋)
      if 0 < buy then
        let line : PlanLine :=
          { product_id := row.product_id, product_name := row.product_name,
            unit_cogs := round2 row.cogs, suggested_qty := buy,
            budget_spend := round2 (buy * row.cogs),
            est_gp_uplift_week := round2 (buy * (row.gp / row.qty)) }
        let res := specGoR rest (remaining - buy * row.cogs)
        (line :: res.1, res.2)
      else specGoR rest remaining

/-- The reorder plan as amended claim C1 words it. -/
def spec_reorder_plan_rounded (tx : List ETxRow) (budget : ℚ) : List PlanLine × ℚ :=
  specGoR (sku_rank tx) budget

/-! ### Cash-Drain Analyzer (`cash_eaters`) -/

inductive DrainCategory where
  | discounts
  | refunds
  | processor_fees
  deriving DecidableEq, Repr

structure DrainEntry where
  category : DrainCategory
  amount : ℚ
  deriving DecidableEq, Repr

def totalDiscounts (tx : List ETxRow) : ℚ := (tx.map (·.discount)).sum

def totalRefunds (rf : List Refund) : ℚ := (rf.map (·.refund_amount)).sum

def totalFees (po : List Payout) : ℚ := (po.map (·.processor_fees)).sum

/-- `a` sorts no later than `b` under
`sort_values("amount", ascending=False)` (stable descending sort). -/
def drainGe (a b : DrainEntry) : Prop := b.amount ≤ a.amount

instance : DecidableRel drainGe := fun a b => by unfold drainGe; exact inferInstance

instance : IsTotal DrainEntry drainGe := ⟨fun a b => (le_total b.amount a.amount).elim .inl .inr⟩

instance : IsTrans DrainEntry drainGe := ⟨fun _ _ _ hab hbc => le_trans hbc hab⟩

/-- The `ce` frame of `cash_eaters`: the three drain categories in
their construction order, sorted descending by amount. -/
def drain_ranking (tx : List ETxRow) (rf : List Refund) (po : List Payout) :
    List DrainEntry :=
  ([⟨.discounts, totalDiscounts tx⟩, ⟨.refunds, totalRefunds rf⟩,
    ⟨.processor_fees, totalFees po⟩] : List DrainEntry).insertionSort drainGe

/-- Group key of the `groupby(["product_id","product_name"])` calls
(no nulls possible in these key columns). -/
structure NameKey where
  product_id : ℕ
  product_name : ℕ
  deriving DecidableEq, Repr

def NameKey.le (a b : NameKey) : Prop :=
  a.product_id < b.product_id ∨ (a.product_id = b.product_id ∧ a.product_name ≤ b.product_name)

instance : DecidableRel NameKey.le := fun a b => by unfold NameKey.le; exact inferInstance

def nameKeys (tx : List ETxRow) : List NameKey :=
  ((tx.map (fun r => NameKey.mk r.product_id r.product_name)).dedup).insertionSort NameKey.le

def rowsForName (tx : List ETxRow) (k : NameKey) : List ETxRow :=
  tx.filter (fun r => decide (r.product_id = k.product_id ∧ r.product_name = k.product_name))

/-- One row of the `sku` frame of `cash_eaters`:
`revenue = sum(net_sales)`, `gp = sum(gross_profit)` (pandas sums skip
the NaN `gross_profit` of product-less rows), and
`margin_pct = np.where(revenue > 0, gp / revenue, 0.0)`. -/
structure SkuMargin where
  product_id : ℕ
  product_name : ℕ
  revenue : ℚ
  gp : ℚ
  margin_pct : ℚ
  deriving DecidableEq, Repr

def mkSkuMargin (tx : List ETxRow) (k : NameKey) : SkuMargin :=
  let rows := rowsForName tx k
  let revenue := (rows.map (·.net_sales)).sum
  let gp := (rows.filterMap ETxRow.gross_profit?).sum
  { product_id := k.product_id, product_name := k.product_name,
    revenue := revenue, gp := gp,
    margin_pct := if 0 < revenue then gp / revenue else 0 }

/-- The per-SKU margin groups produced by `cash_eaters`. -/
def skuMargins (tx : List ETxRow) : List SkuMargin :=
  (nameKeys tx).map (mkSkuMargin tx)

/-! ### Clearance Estimator (`free_up_cash`) -/

/-- One row of the per-SKU quantity aggregation of `free_up_cash`. -/
structure SkuQty where
  product_id : ℕ
  product_name : ℕ
  qty : ℤ
  qty_per_day : ℚ
  deriving DecidableEq, Repr

def mkSkuQty (tx : List ETxRow) (days : ℚ) (k : NameKey) : SkuQty :=
  let qty : ℤ := ((rowsForName tx k).map (·.quantity)).sum
  { product_id := k.product_id, product_name := k.product_name,
    qty := qty, qty_per_day := qty / days }

def fuSkuDaily (tx : List ETxRow) : List SkuQty :=
  (nameKeys tx).map (mkSkuQty tx (daysSpan tx : ℚ))

/-- `sort_values("qty_per_day")` (stable ascending). -/
def slowLe (a b : SkuQty) : Prop := a.qty_per_day ≤ b.qty_per_day

instance : DecidableRel slowLe := fun a b => by unfold slowLe; exact inferInstance

/-- Pandas `Series.median`: midpoint of the sorted values (mean of the
two central values for an even count; junk `0` on an empty list, which
cannot occur for a SKU taken from the table itself). -/
def median (l : List ℚ) : ℚ :=
  let s := l.insertionSort (· ≤ ·)
  if s.length = 0 then 0
  else if s.length % 2 = 1 then s.getD (s.length / 2) 0
  else (s.getD (s.length / 2 - 1) 0 + s.getD (s.length / 2) 0) / 2

/-- `price_lookup`: per-product median of `unit_price` over the whole
view, merged back onto the slow movers. -/
def medianPrice (tx : List ETxRow) (pid : ℕ) : ℚ :=
  median ((tx.filter (fun r => decide (r.product_id = pid))).map (·.unit_price))

structure SlowMover where
  product_id : ℕ
  product_name : ℕ
  qty : ℤ
  qty_per_day : ℚ
  price : ℚ
  discount_rate : ℚ
  assumed_lift : ℚ
  extra_units : ℚ
  discounted_price : ℚ
  extra_cash_inflow : ℚ
  deriving DecidableEq, Repr

/-- The derived columns of `free_up_cash` for one slow mover:
`discount_rate = 0.20`, `assumed_lift = 1.5`,
`extra_units = (qty_per_day * 7 * (assumed_lift - 1)).round(0)`,
`discounted_price = (price * (1 - discount_rate)).round(2)`,
`extra_cash_inflow = (extra_units * discounted_price).round(2)`. -/
def mkSlowMover (tx : List ETxRow) (s : SkuQty) : SlowMover :=
  let price := medianPrice tx s.product_id
  let eu := round0 (s.qty_per_day * 7 * (3/2 - 1))
  let dp := round2 (price * (1 - 1/5))
  { product_id := s.product_id, product_name := s.product_name, qty := s.qty,
    qty_per_day := s.qty_per_day, price := price,
    discount_rate := 1/5, assumed_lift := 3/2,
    extra_units := eu, discounted_price := dp,
    extra_cash_inflow := round2 (eu * dp) }

/-- `head(max(1, int(0.2 * len(sku_daily))))`: since `0.2` in binary
floating point is slightly above `1/5` and the products involved round
back to the nearest double, `int(0.2 * n)` equals `n / 5` (floor) for
every table size `n`, so the cut is `max 1 (n / 5)`. -/
def slowCut (n : ℕ) : ℕ := max 1 (n / 5)

def slow_movers (tx : List ETxRow) : List SlowMover :=
  let sd := fuSkuDaily tx
  ((sd.insertionSort slowLe).take (slowCut sd.length)).map (mkSlowMover tx)

/-- `free_up_cash`: the slow movers and
`total = float(slow["extra_cash_inflow"].sum())`. -/
def free_up_cash (tx : List ETxRow) : List SlowMover × ℚ :=
  (slow_movers tx, ((slow_movers tx).map (·.extra_cash_inflow)).sum)

/-! ### Schema Validator (`utils.validate_schema_or_raise`) -/

/-- `validate_schema_or_raise(kind, df, required_columns)`:
`missing = [c for c in required_columns if c not in df.columns]`, and
`raise ValueError(f"{kind}: missing required columns: {missing}")`
when `missing` is nonempty.  The raised message carries the table kind
and the full missing list, embedded here as the structured pair. -/
def validate_schema_or_raise (kind : String) (columns : List String)
    (required_columns : List String) : Except (String × List String) Unit :=
  let missing := required_columns.filter (fun c => decide (c ∉ columns))
  if missing.isEmpty then Except.ok () else Except.error (kind, missing)

/-! ### Module state (`_current_*`), `set_data`, `executive_snapshot` -/

/-- The four module-level `_current_*` tables (`None` = not loaded). -/
structure AppState where
  transactions : Option (List TxRow)
  refunds : Option (List Refund)
  payouts : Option (List Payout)
  products : Option (List Product)
  deriving DecidableEq, Repr

def updTable {α : Type} : Option α → Option α → Option α
  | some x, _ => some x
  | none, old => old

/-- `set_data(transactions=..., refunds=..., payouts=..., products=...)`:
each table is replaced only when the corresponding argument is not
`None`; omitted tables keep their prior value. -/
def set_data (s : AppState) (transactions : Option (List TxRow))
    (refunds : Option (List Refund)) (payouts : Option (List Payout))
    (products : Option (List Product)) : AppState :=
  { transactions := updTable transactions s.transactions,
    refunds := updTable refunds s.refunds,
    payouts := updTable payouts s.payouts,
    products := updTable products s.products }

/-- The numeric content of the snapshot HTML (`period_start/end` are
`none` when the table is empty, where pandas renders NaN). -/
structure Snapshot where
  period_start : Option ℤ
  period_end : Option ℤ
  transaction_count : ℕ
  items_sold : ℤ
  gross_sales : ℚ
  discounts : ℚ
  tax : ℚ
  tips : ℚ
  card_sales : ℚ
  cash_sales : ℚ
  processor_fees : ℚ
  refunds_total : ℚ
  net_payouts : ℚ
  deriving DecidableEq, Repr

/-- Outcome of `executive_snapshot()`: the "No Data Available" HTML
(produced only when `get_current_data` raises, i.e. when
`_current_transactions is None`), an uncaught Python exception (a
loaded transactions table but some other table still `None`), or the
rendered snapshot. -/
inductive SnapResult where
  | noData (msg : String)
  | pythonError
  | ok (snap : Snapshot)
  deriving DecidableEq, Repr

def mkSnapshot (tx : List ETxRow) (rf : List Refund) (po : List Payout) : Snapshot :=
  { period_start := (tx.map (·.day)).min?,
    period_end := (tx.map (·.day)).max?,
    transaction_count := (tx.map (·.transaction_id)).dedup.length,
    items_sold := (tx.map (·.quantity)).sum,
    gross_sales := (tx.map (·.gross_sales)).sum,
    discounts := totalDiscounts tx,
    tax := (tx.map (·.tax)).sum,
    tips := (tx.map (·.tip_amount)).sum,
    card_sales :=
      ((tx.filter (fun r => decide (r.payment_type = PaymentType.CARD))).map (·.line_total)).sum,
    cash_sales :=
      ((tx.filter (fun r => decide (r.payment_type = PaymentType.CASH))).map (·.line_total)).sum,
    processor_fees := totalFees po,
    refunds_total := totalRefunds rf,
    net_payouts := (po.map (·.net_payout_amount)).sum }

def executive_snapshot (s : AppState) : SnapResult :=
  match s.transactions with
  | none => .noData "Cannot process data: No data loaded. Please upload CSV files first."
  | some txs =>
    match s.products, s.refunds, s.payouts with
    | some pm, some rf, some po => .ok (mkSnapshot (enrich txs pm) rf po)
    | _, _, _ => .pythonError


/-! ### Concrete sample data (used by witnesses and counterexamples) -/

def txRowA : TxRow :=
  { day := 0, transaction_id := 1, product_id := 1, product_name := 1, category := 0,
    quantity := 1, unit_price := 2, gross_sales := 2, discount := 0, net_sales := 2,
    tax := 0, line_total := 2, payment_type := .CARD, tip_amount := 0 }

/-- A line for a product (`product_id = 2`) that has no product-master
row. -/
def txRowC : TxRow :=
  { day := 0, transaction_id := 2, product_id := 2, product_name := 2, category := 0,
    quantity := 1, unit_price := 3, gross_sales := 3, discount := 0, net_sales := 3,
    tax := 0, line_total := 3, payment_type := .CASH, tip_amount := 0 }

/-- A line with a discount of 5, used to tie the drain ranking against
a refund of 5. -/
def txRowD : TxRow := { txRowA with discount := 5, net_sales := -3, line_total := -3 }

def txRowB : TxRow := { txRowA with transaction_id := 3, day := 1 }

def refundA : Refund := { original_transaction_id := 1, refund_date := 0, refund_amount := 5 }

def payoutA : Payout :=
  { covering_sales_date := 0, gross_card_volume := 10, processor_fees := 3,
    net_payout_amount := 7, payout_date := 1 }

/-- `cogs = 0.336`: a unit cost with more than two decimals, which
makes the 2-decimal rounding of the recorded plan fields visible. -/
def productA : Product := { product_id := 1, product_name := 1, category := 0, cogs := 42/125 }

def etxA : ETxRow := { toTxRow := txRowA, cogs? := some (42/125) }

def etxD : ETxRow := { toTxRow := txRowD, cogs? := some (42/125) }

/-- The one-SKU enriched view `enrich [txRowA] [productA]`. -/
def ceTx : List ETxRow := enrich [txRowA] [productA]

def stateA : AppState :=
  { transactions := some [txRowA], refunds := some [refundA],
    payouts := some [payoutA], products := some [productA] }

/-- All four tables loaded but the transactions table empty. -/
def emptyLoadedState : AppState :=
  { transactions := some [], refunds := some [], payouts := some [], products := some [] }

/-- The all-zero snapshot the code renders for an empty loaded table. -/
def zeroSnapshot : Snapshot :=
  { period_start := none, period_end := none, transaction_count := 0, items_sold := 0,
    gross_sales := 0, discounts := 0, tax := 0, tips := 0, card_sales := 0, cash_sales := 0,
    processor_fees := 0, refunds_total := 0, net_payouts := 0 }

theorem rhe_le (x : ℚ) : (rhe x : ℚ) ≤ x + 1/2 := by
  unfold rhe
  split_ifs with h1 h2 h3
  · have := Int.floor_le x
    linarith
  · push_cast
    linarith
  · have := Int.floor_le x
    linarith
  · push_cast
    have : x - ⌊x⌋ = 1/2 := le_antisymm (not_lt.mp h2) (not_lt.mp h1)
    linarith

theorem le_rhe (x : ℚ) : x - 1/2 ≤ (rhe x : ℚ) := by
  unfold rhe
  split_ifs with h1 h2 h3
  · linarith
  · have := Int.lt_floor_add_one x
    push_cast
    linarith
  · have : x - ⌊x⌋ = 1/2 := le_antisymm (not_lt.mp h2) (not_lt.mp h1)
    linarith
  · have := Int.lt_floor_add_one x
    push_cast
    linarith

theorem rhe_intCast (z : ℤ) : rhe (z : ℚ) = z := by
  unfold rhe
  rw [Int.floor_intCast]
  simp

theorem round2_le (x : ℚ) : round2 x ≤ x + 1/200 := by
  unfold round2
  have h := rhe_le (100 * x)
  linarith

theorem le_round2 (x : ℚ) : x - 1/200 ≤ round2 x := by
  unfold round2
  have h := le_rhe (100 * x)
  linarith

/-- `round2` is the identity on values that are whole numbers of
cents, in particular on `z * round2 y` with `z` an integer. -/
theorem round2_eq_self_of_cents (x : ℚ) (h : ∃ z : ℤ, 100 * x = z) : round2 x = x := by
  obtain ⟨z, hz⟩ := h
  unfold round2
  rw [hz, rhe_intCast, ← hz]
  ring

theorem minCogs_foldl_le_init : ∀ (l : List SkuDaily) (a : ℚ),
    l.foldl (fun m x => min m x.cogs) a ≤ a := by
  intro l
  induction l with
  | nil => intro a; simp
  | cons x xs ih =>
    intro a
    calc (x :: xs).foldl (fun m x => min m x.cogs) a
        = xs.foldl (fun m x => min m x.cogs) (min a x.cogs) := rfl
      _ ≤ min a x.cogs := ih _
      _ ≤ a := min_le_left _ _

theorem minCogs_foldl_le_mem : ∀ {l : List SkuDaily} {s : SkuDaily}, s ∈ l →
    ∀ a : ℚ, l.foldl (fun m x => min m x.cogs) a ≤ s.cogs := by
  intro l
  induction l with
  | nil => intro s h; exact absurd h (List.not_mem_nil s)
  | cons x xs ih =>
    intro s hs a
    rcases List.mem_cons.mp hs with h | h
    · rw [h]
      exact le_trans (minCogs_foldl_le_init xs (min a x.cogs)) (min_le_right _ _)
    · exact ih h _

theorem minCogs_le {l : List SkuDaily} {s : SkuDaily} (h : s ∈ l) :
    minCogs l ≤ s.cogs := by
  match l, h with
  | x :: xs, h =>
    rcases List.mem_cons.mp h with h | h
    · rw [h]
      exact minCogs_foldl_le_init xs x.cogs
    · exact minCogs_foldl_le_mem h x.cogs

theorem buyUnits_nonneg (row : SkuDaily) (r : ℚ) : 0 ≤ buyUnits row r :=
  le_max_left _ _

/-- When the SKU is affordable at all, the spend stays within the
remaining budget: `buy ≤ floor(remaining / cogs)`. -/
theorem buyUnits_spend_le {row : SkuDaily} {r : ℚ} (hr : 0 ≤ r) (hc : 0 < row.cogs) :
    (buyUnits row r : ℚ) * row.cogs ≤ r := by
  have hfloor : (0 : ℤ) ≤ ⌊r / row.cogs⌋ :=
    Int.floor_nonneg.mpr (div_nonneg hr (le_of_lt hc))
  have hle : buyUnits row r ≤ ⌊r / row.cogs⌋ := by
    unfold buyUnits
    omega
  have h1 : (buyUnits row r : ℚ) ≤ (⌊r / row.cogs⌋ : ℚ) := by exact_mod_cast hle
  have h2 : (⌊r / row.cogs⌋ : ℚ) ≤ r / row.cogs := Int.floor_le _
  calc (buyUnits row r : ℚ) * row.cogs
      ≤ (r / row.cogs) * row.cogs :=
        mul_le_mul_of_nonneg_right (le_trans h1 h2) hc.le
    _ = r := div_mul_cancel₀ r (ne_of_gt hc)

/-- No purchase is possible once the remaining budget is below the
unit cost. -/
theorem buyUnits_eq_zero {row : SkuDaily} {r : ℚ} (hr : 0 ≤ r) (hc : 0 < row.cogs)
    (hlt : r < row.cogs) : buyUnits row r = 0 := by
  have hfloor : ⌊r / row.cogs⌋ = 0 := by
    rw [Int.floor_eq_zero_iff, Set.mem_Ico]
    exact ⟨div_nonneg hr hc.le, (div_lt_one hc).mpr hlt⟩
  unfold buyUnits
  rw [hfloor]
  omega

/-- Once the remaining budget is below every positive unit cost left,
the rest of the full greedy pass is a no-op. -/
theorem reorderGoNB_noop : ∀ (l : List SkuDaily) (r : ℚ) (p : List PlanLine),
    0 ≤ r → (∀ s ∈ l, 0 < s.cogs → r < s.cogs) → reorderGoNB l r p = (p, r) := by
  intro l
  induction l with
  | nil => intro r p _ _; rfl
  | cons row rest ih =>
    intro r p hr hall
    by_cases hc : row.cogs ≤ 0
    · simp only [reorderGoNB, if_pos hc]
      exact ih r p hr (fun s hs => hall s (List.mem_cons_of_mem _ hs))
    · push_neg at hc
      have hlt : r < row.cogs := hall row (List.mem_cons_self _ _) hc
      have hbuy : buyUnits row r = 0 := buyUnits_eq_zero hr hc hlt
      simp only [reorderGoNB, if_neg (not_le.mpr hc), hbuy, lt_irrefl, if_neg, ite_false]
      exact ih r p hr (fun s hs => hall s (List.mem_cons_of_mem _ hs))

/-- The early exit of `reorder_plan` never changes the outcome: the
loop with the break equals the full pass, provided the break bound is
a lower bound on every positive unit cost (which `minCogs` is). -/
theorem reorderGo_eq_nobreak (m : ℚ) : ∀ (l : List SkuDaily) (r : ℚ) (p : List PlanLine),
    0 ≤ r → (∀ s ∈ l, 0 < s.cogs → m ≤ s.cogs) →
    reorderGo m l r p = reorderGoNB l r p := by
  intro l
  induction l with
  | nil => intro r p _ _; rfl
  | cons row rest ih =>
    intro r p hr hall
    have htail : ∀ s ∈ rest, 0 < s.cogs → m ≤ s.cogs :=
      fun s hs => hall s (List.mem_cons_of_mem _ hs)
    by_cases hc : row.cogs ≤ 0
    · simp only [reorderGo, reorderGoNB, if_pos hc]
      exact ih r p hr htail
    · push_neg at hc
      by_cases hb : 0 < buyUnits row r
      · have hspend : (buyUnits row r : ℚ) * row.cogs ≤ r := buyUnits_spend_le hr hc
        have hr2 : 0 ≤ r - buyUnits row r * row.cogs := by linarith
        by_cases hbreak : r - buyUnits row r * row.cogs < m
        · have hnoop := reorderGoNB_noop rest (r - buyUnits row r * row.cogs)
            (p ++ [mkPlanLine row (buyUnits row r)]) hr2
            (fun s hs hcs => lt_of_lt_of_le hbreak (htail s hs hcs))
          simp only [reorderGo, reorderGoNB, if_neg (not_le.mpr hc), if_pos hb,
            if_pos hbreak, hnoop]
        · simp only [reorderGo, reorderGoNB, if_neg (not_le.mpr hc), if_pos hb,
            if_neg hbreak]
          exact ih _ _ hr2 htail
      · by_cases hbreak : r < m
        · have hnoop := reorderGoNB_noop rest r p hr
            (fun s hs hcs => lt_of_lt_of_le hbreak (htail s hs hcs))
          simp only [reorderGo, reorderGoNB, if_neg (not_le.mpr hc), if_neg hb,
            if_pos hbreak, hnoop]
        · simp only [reorderGo, reorderGoNB, if_neg (not_le.mpr hc), if_neg hb,
            if_neg hbreak]
          exact ih _ _ hr htail

theorem reorder_plan_eq_nobreak (tx : List ETxRow) (budget : ℚ) (h : 0 ≤ budget) :
    reorder_plan tx budget = reorder_plan_nobreak tx budget :=
  reorderGo_eq_nobreak (minCogs (sku_rank tx)) (sku_rank tx) budget [] h
    (fun _ hs _ => minCogs_le hs)

theorem one_le_sum_int : ∀ {l : List ℤ}, (∀ x ∈ l, 1 ≤ x) → l ≠ [] → 1 ≤ l.sum := by
  intro l
  induction l with
  | nil => intro _ h; exact absurd rfl h
  | cons x xs ih =>
    intro hall _
    have hx : 1 ≤ x := hall x (List.mem_cons_self _ _)
    have hxs : 0 ≤ xs.sum :=
      List.sum_nonneg (fun y hy => le_trans zero_le_one (hall y (List.mem_cons_of_mem _ hy)))
    simp only [List.sum_cons]
    omega

/-- Every `sku_daily` group of a nonempty quantity-positive view has
total quantity ≥ 1 and positive daily velocity. -/
theorem sku_daily_mem_facts {tx : List ETxRow} {s : SkuDaily}
    (hne : tx ≠ []) (hq : ∀ r ∈ tx, 1 ≤ r.quantity) (hs : s ∈ sku_daily tx) :
    1 ≤ s.qty ∧ 0 < s.qty_per_day := by
  obtain ⟨k, hk, hmk⟩ := List.mem_map.mp hs
  have hkmem : k ∈ (tx.filterMap ETxRow.skuKey?).dedup := by
    have := (List.mem_insertionSort SkuKey.le).mp hk
    exact this
  have hkex : ∃ r ∈ tx, r.skuKey? = some k := by
    have := List.mem_dedup.mp hkmem
    obtain ⟨r, hr, hrk⟩ := List.mem_filterMap.mp this
    exact ⟨r, hr, hrk⟩
  obtain ⟨r, hrtx, hrk⟩ := hkex
  have hrrows : r ∈ skuRowsFor tx k := by
    unfold skuRowsFor
    rw [List.mem_filter]
    exact ⟨hrtx, by simp [hrk]⟩
  have hrows_sub : ∀ x ∈ skuRowsFor tx k, x ∈ tx := by
    intro x hx
    exact (List.mem_filter.mp hx).1
  have hqty : 1 ≤ ((skuRowsFor tx k).map (·.quantity)).sum := by
    apply one_le_sum_int
    · intro q hqmem
      obtain ⟨x, hx, hxq⟩ := List.mem_map.mp hqmem
      rw [← hxq]
      exact hq x (hrows_sub x hx)
    · intro hempty
      rw [List.map_eq_nil_iff] at hempty
      rw [hempty] at hrrows
      exact absurd hrrows (List.not_mem_nil r)
  have hdays : (1 : ℚ) ≤ (daysSpan tx : ℚ) := by exact_mod_cast one_le_daysSpan hne
  constructor
  · rw [← hmk]
    exact hqty
  · rw [← hmk]
    show (0 : ℚ) < ((((skuRowsFor tx k).map (·.quantity)).sum : ℤ) : ℚ) / (daysSpan tx : ℚ)
    apply div_pos
    · exact_mod_cast lt_of_lt_of_le zero_lt_one hqty
    · linarith

theorem sku_rank_mem_facts {tx : List ETxRow} {s : SkuDaily}
    (hne : tx ≠ []) (hq : ∀ r ∈ tx, 1 ≤ r.quantity) (hs : s ∈ sku_rank tx) :
    1 ≤ s.qty ∧ 0 < s.qty_per_day :=
  sku_daily_mem_facts hne hq ((List.mem_insertionSort rankGe).mp hs)

/-- Under the data-model invariant (`quantity ≥ 1` per line), the code
loop without the break computes exactly the amended-spec greedy pass. -/
theorem reorderGoNB_eq_specGoR : ∀ (l : List SkuDaily) (r : ℚ) (p : List PlanLine),
    (∀ s ∈ l, 1 ≤ s.qty ∧ 0 < s.qty_per_day) →
    reorderGoNB l r p = (p ++ (specGoR l r).1, (specGoR l r).2) := by
  intro l
  induction l with
  | nil => intro r p _; simp [reorderGoNB, specGoR]
  | cons row rest ih =>
    intro r p hall
    have hrow := hall row (List.mem_cons_self _ _)
    have htail : ∀ s ∈ rest, 1 ≤ s.qty ∧ 0 < s.qty_per_day :=
      fun s hs => hall s (List.mem_cons_of_mem _ hs)
    by_cases hc : row.cogs ≤ 0
    · simp only [reorderGoNB, specGoR, if_pos hc]
      exact ih r p htail
    · have hceil : 1 ≤ ⌈row.qty_per_day * 5⌉ := by
        have hpos : (0 : ℚ) < row.qty_per_day * 5 := by
          have := hrow.2
          linarith
        have := Int.ceil_pos.mpr hpos
        omega
      have hbuy_eq : buyUnits row r =
          max 0 (min ⌈row.qty_per_day * 5⌉ ⌊r / row.cogs⌋) := by
        unfold buyUnits
        rw [max_eq_right hceil]
      have hqtymax : max 1 row.qty = row.qty := max_eq_right hrow.1
      have hline : mkPlanLine row (buyUnits row r) =
          { product_id := row.product_id, product_name := row.product_name,
            unit_cogs := round2 row.cogs, suggested_qty := buyUnits row r,
            budget_spend := round2 (buyUnits row r * row.cogs),
            est_gp_uplift_week := round2 (buyUnits row r * (row.gp / row.qty)) } := by
        unfold mkPlanLine
        rw [hqtymax]
      by_cases hb : 0 < buyUnits row r
      · have hb2 : 0 < max 0 (min ⌈row.qty_per_day * 5⌉ ⌊r / row.cogs⌋) := by
          rw [← hbuy_eq]; exact hb
        simp only [reorderGoNB, specGoR, if_neg hc, if_pos hb, if_pos hb2]
        rw [ih _ _ htail, hline, ← hbuy_eq]
        simp
      · have hb2 : ¬ 0 < max 0 (min ⌈row.qty_per_day * 5⌉ ⌊r / row.cogs⌋) := by
          rw [← hbuy_eq]; exact hb
        simp only [reorderGoNB, specGoR, if_neg hc, if_neg hb, if_neg hb2]
        exact ih r p htail

/-- Budget invariant of the greedy loop, from any state with a
nonnegative remaining budget: the remaining budget stays nonnegative
and never grows, the appended lines all have positive quantity, and
their recorded (2-decimal-rounded) spends sum to at most the amount
actually deducted plus the rounding slack of `1/200` per line. -/
theorem reorderGo_budget_inv (m : ℚ) : ∀ (l : List SkuDaily) (r : ℚ) (p : List PlanLine),
    0 ≤ r →
    0 ≤ (reorderGo m l r p).2 ∧ (reorderGo m l r p).2 ≤ r ∧
    ∃ q, (reorderGo m l r p).1 = p ++ q ∧ (∀ ln ∈ q, 0 < ln.suggested_qty) ∧
      (q.map PlanLine.budget_spend).sum ≤ (r - (reorderGo m l r p).2) + q.length * (1/200) := by
  intro l
  induction l with
  | nil =>
    intro r p hr
    refine ⟨hr, le_refl r, [], by simp [reorderGo], by simp, by simp [reorderGo]⟩
  | cons row rest ih =>
    intro r p hr
    by_cases hc : row.cogs ≤ 0
    · simp only [reorderGo, if_pos hc]
      exact ih r p hr
    · push_neg at hc
      by_cases hb : 0 < buyUnits row r
      · have hspend : (buyUnits row r : ℚ) * row.cogs ≤ r := buyUnits_spend_le hr hc
        have hr2 : 0 ≤ r - buyUnits row r * row.cogs := by linarith
        have hround : round2 (buyUnits row r * row.cogs) ≤
            buyUnits row r * row.cogs + 1/200 := round2_le _
        have hnn : 0 ≤ (buyUnits row r : ℚ) * row.cogs :=
          mul_nonneg (by exact_mod_cast buyUnits_nonneg row r) hc.le
        by_cases hbreak : r - buyUnits row r * row.cogs < m
        · simp only [reorderGo, if_neg (not_le.mpr hc), if_pos hb, if_pos hbreak]
          refine ⟨hr2, by linarith, [mkPlanLine row (buyUnits row r)], rfl, ?_, ?_⟩
          · intro ln hln
            rw [List.mem_singleton.mp hln]
            exact hb
          · simp only [List.map_cons, List.map_nil, List.sum_cons, List.sum_nil,
              List.length_cons, List.length_nil, mkPlanLine]
            push_cast
            linarith
        · simp only [reorderGo, if_neg (not_le.mpr hc), if_pos hb, if_neg hbreak]
          obtain ⟨h0, hle, q, hplan, hqty, hsum⟩ :=
            ih (r - buyUnits row r * row.cogs) (p ++ [mkPlanLine row (buyUnits row r)]) hr2
          refine ⟨h0, by linarith, mkPlanLine row (buyUnits row r) :: q, ?_, ?_, ?_⟩
          · rw [hplan, List.append_assoc]
            rfl
          · intro ln hln
            rcases List.mem_cons.mp hln with h | h
            · rw [h]; exact hb
            · exact hqty ln h
          · simp only [List.map_cons, List.sum_cons, List.length_cons]
            have : (mkPlanLine row (buyUnits row r)).budget_spend =
                round2 (buyUnits row r * row.cogs) := rfl
            rw [this]
            push_cast
            linarith
      · simp only [reorderGo, if_neg (not_le.mpr hc), if_neg hb]
        by_cases hbreak : r < m
        · simp only [if_pos hbreak]
          exact ⟨hr, le_refl r, [], by simp, by simp, by simp⟩
        · simp only [if_neg hbreak]
          exact ih r p hr

/-! ### Claim theorems -/

/-- C7: the Schema Validator fails iff at least one required column is
absent: validation succeeds exactly when every required column is
present, and on failure the reported error carries the table kind and
the complete list of missing required columns (the check is a pure
function of its inputs, so it has no side effect on the table or any
other state). -/
theorem validate_schema_correct (kind : String) (columns required_columns : List String) :
    (validate_schema_or_raise kind columns required_columns = Except.ok () ↔
      ∀ c ∈ required_columns, c ∈ columns) ∧
    (∀ e, validate_schema_or_raise kind columns required_columns = Except.error e →
      e.1 = kind ∧ ∀ c : String, c ∈ e.2 ↔ (c ∈ required_columns ∧ c ∉ columns)) := by
  have hfil : ∀ c : String,
      c ∈ required_columns.filter (fun c => decide (c ∉ columns)) ↔
      (c ∈ required_columns ∧ c ∉ columns) := by
    intro c
    rw [List.mem_filter]
    simp
  have hsplit : validate_schema_or_raise kind columns required_columns =
      if (required_columns.filter (fun c => decide (c ∉ columns))).isEmpty then Except.ok ()
      else Except.error (kind, required_columns.filter (fun c => decide (c ∉ columns))) := rfl
  by_cases h : (required_columns.filter (fun c => decide (c ∉ columns))).isEmpty
  · have hnil : required_columns.filter (fun c => decide (c ∉ columns)) = [] :=
      List.isEmpty_iff.mp h
    rw [hsplit, if_pos h]
    refine ⟨⟨fun _ c hc => ?_, fun _ => rfl⟩, fun e he => absurd he (by simp)⟩
    by_contra hnc
    have hmem := (hfil c).mpr ⟨hc, hnc⟩
    rw [hnil] at hmem
    exact absurd hmem (List.not_mem_nil c)
  · rw [hsplit, if_neg h]
    constructor
    · constructor
      · intro hok
        exact absurd hok (by simp)
      · intro hall
        exfalso
        apply h
        rw [List.isEmpty_iff, List.filter_eq_nil_iff]
        intro c hc
        simp [hall c hc]
    · intro e he
      injection he with h2
      subst h2
      exact ⟨rfl, hfil⟩

/-- C7 witness: at `kind = "pm"`, a table with columns
`["product_id"]` and required `["product_id", "product_name"]`, the
validator fails with exactly the missing list `["product_name"]`;
and with all required columns present it succeeds. -/
theorem validate_schema_correct_witness :
    validate_schema_or_raise "tx" ["date", "quantity"] ["date", "quantity"] = Except.ok () ∧
    (("pm", ["product_name"]) : String × List String).1 = "pm" ∧
    (∀ c : String, c ∈ (("pm", ["product_name"]) : String × List String).2 ↔
      (c ∈ ["product_id", "product_name"] ∧ c ∉ ["product_id"])) :=
  ⟨(validate_schema_correct "tx" ["date", "quantity"] ["date", "quantity"]).1.mpr (by decide),
   (validate_schema_correct "pm" ["product_id"] ["product_id", "product_name"]).2
     ("pm", ["product_name"]) rfl |>.1,
   (validate_schema_correct "pm" ["product_id"] ["product_id", "product_name"]).2
     ("pm", ["product_name"]) rfl |>.2⟩

/-- C8 counterexample: loading only a new transactions table via
`set_data` keeps the previously loaded refunds table, so the current
dataset mixes tables from two different loads — the prior dataset is
not replaced wholesale. -/
theorem set_data_partial_mixes_datasets :
    (set_data stateA (some [txRowB]) none none none).transactions = some [txRowB] ∧
    (set_data stateA (some [txRowB]) none none none).refunds = some [refundA] ∧
    (set_data stateA (some [txRowB]) none none none).payouts = some [payoutA] ∧
    (set_data stateA (some [txRowB]) none none none).products = some [productA] :=
  ⟨rfl, rfl, rfl, rfl⟩

/-- C8 amended: `set_data` replaces exactly the tables passed as
non-`None` arguments and keeps the prior value of every omitted
table; only a call passing all four tables replaces the dataset
wholesale (which the upload flow does when all four files are given),
and a call passing none of them leaves the state unchanged. -/
theorem set_data_replace_semantics (s : AppState) (t : List TxRow) (r : List Refund)
    (p : List Payout) (q : List Product) :
    set_data s (some t) (some r) (some p) (some q) =
      { transactions := some t, refunds := some r, payouts := some p, products := some q } ∧
    (set_data s (some t) none none none).transactions = some t ∧
    (set_data s (some t) none none none).refunds = s.refunds ∧
    (set_data s (some t) none none none).payouts = s.payouts ∧
    (set_data s (some t) none none none).products = s.products ∧
    set_data s none none none none = s :=
  ⟨rfl, rfl, rfl, rfl, rfl, rfl⟩

/-- C3 (evaluation at the failing input): with all four tables loaded
but the transactions table empty, `executive_snapshot` does not return
the no-data state — it renders an ordinary snapshot whose numbers are
all zero; the explicit no-data state is produced only when the
transactions table has never been set. -/
theorem executive_snapshot_empty_table_zeros :
    executive_snapshot emptyLoadedState = SnapResult.ok zeroSnapshot ∧
    executive_snapshot
        { transactions := none, refunds := none, payouts := none, products := none } =
      SnapResult.noData "Cannot process data: No data loaded. Please upload CSV files first." :=
  ⟨rfl, rfl⟩

/-- C9: the early exit (`break` once `remaining` drops below the
minimum `cogs` of the ranked SKUs) never changes the result: the plan
and remaining budget equal those of the same greedy pass run to
completion over all ranked SKUs. -/
theorem reorder_plan_early_exit_equiv (tx : List ETxRow) (budget : ℚ) (h : 0 < budget) :
    reorder_plan tx budget = reorder_plan_nobreak tx budget :=
  reorder_plan_eq_nobreak tx budget h.le

/-- C9 witness: the equivalence at the concrete one-SKU view and
budget 10. -/
theorem reorder_plan_early_exit_equiv_witness :
    reorder_plan ceTx 10 = reorder_plan_nobreak ceTx 10 :=
  reorder_plan_early_exit_equiv ceTx 10 (by norm_num)

unseal Rat.add Rat.mul Rat.sub Rat.inv in
/-- C2 counterexample: at the one-SKU view with `cogs = 0.336` and
budget `0.336`, the planner buys 1 unit and records
`budget_spend = round(0.336, 2) = 0.34`, so the sum of recorded spends
(`0.34`) exceeds the input budget (`0.336`). -/
theorem reorder_plan_recorded_spend_can_exceed_budget :
    ¬ (((reorder_plan ceTx (42/125)).1.map PlanLine.budget_spend).sum ≤ 42/125) := by
  decide

/-- C2 amended: the amount actually deducted (`budget - remaining`)
never exceeds the budget — equivalently `remaining ≤ budget` and
`remaining ≥ 0` hold after every iteration (the theorem applies to the
final state of the loop started at any budget, and the inductive
invariant holds stepwise); every plan line has `quantity > 0`; and the
recorded per-line `spend` fields, being rounded to 2 decimals, sum to
at most the deducted amount plus `0.005` per plan line (so they can
exceed the budget only by that rounding slack). -/
theorem reorder_plan_budget_invariants (tx : List ETxRow) (budget : ℚ) (h : 0 < budget) :
    0 ≤ (reorder_plan tx budget).2 ∧
    (reorder_plan tx budget).2 ≤ budget ∧
    (∀ ln ∈ (reorder_plan tx budget).1, 0 < ln.suggested_qty) ∧
    ((reorder_plan tx budget).1.map PlanLine.budget_spend).sum ≤
      (budget - (reorder_plan tx budget).2) + (reorder_plan tx budget).1.length * (1/200) := by
  obtain ⟨h0, hle, q, hplan, hqty, hsum⟩ :=
    reorderGo_budget_inv (minCogs (sku_rank tx)) (sku_rank tx) budget [] h.le
  have hplan2 : (reorder_plan tx budget).1 = q := by
    show (reorderGo (minCogs (sku_rank tx)) (sku_rank tx) budget []).1 = q
    rw [hplan]
    exact List.nil_append q
  refine ⟨h0, hle, ?_, ?_⟩
  · intro ln hln
    rw [hplan2] at hln
    exact hqty ln hln
  · rw [hplan2]
    exact hsum

unseal Rat.add Rat.mul Rat.sub Rat.inv in
/-- C2 witness: the invariants at the concrete one-SKU view and
budget 10 (whose single plan line has quantity 5). -/
theorem reorder_plan_budget_invariants_witness :
    (0 : ℚ) ≤ (reorder_plan ceTx 10).2 ∧
    (reorder_plan ceTx 10).2 ≤ 10 ∧
    0 < (PlanLine.mk 1 1 (17/50) 5 (42/25) (208/25)).suggested_qty ∧
    ((reorder_plan ceTx 10).1.map PlanLine.budget_spend).sum ≤
      (10 - (reorder_plan ceTx 10).2) + (reorder_plan ceTx 10).1.length * (1/200) :=
  ⟨(reorder_plan_budget_invariants ceTx 10 (by norm_num)).1,
   (reorder_plan_budget_invariants ceTx 10 (by norm_num)).2.1,
   (reorder_plan_budget_invariants ceTx 10 (by norm_num)).2.2.1 _ (by decide),
   (reorder_plan_budget_invariants ceTx 10 (by norm_num)).2.2.2⟩

unseal Rat.add Rat.mul Rat.sub Rat.inv in
/-- C1 counterexample: at the one-SKU view with `cogs = 0.336` and
budget 10, the code records `unit_cogs = round(0.336, 2) = 0.34` while
the claim's plan line carries `unit_cost = cogs = 0.336`, so the
returned plan is not the claim's plan. -/
theorem reorder_plan_ne_spec_plan :
    reorder_plan ceTx 10 ≠ spec_reorder_plan ceTx 10 := by
  decide

/-- C1 amended: for every enriched view with at least one row whose
quantities respect the data-model invariant (`quantity ≥ 1`) and every
budget > 0, `reorder_plan` returns exactly the claim's greedy plan
with the three recorded money fields rounded to 2 decimals
(`unit_cost = round(cogs, 2)`, `spend = round(qty * cogs, 2)`,
`estimated_weekly_profit_uplift = round(qty * (gp / qty_total), 2)`),
the remaining budget still being decremented by the unrounded
`qty * cogs`; ranking, the `ceil`/`floor` buy rule, and the complete
exclusion of `cogs ≤ 0` SKUs are as the claim states. -/
theorem reorder_plan_eq_spec_greedy_rounded (tx : List ETxRow) (budget : ℚ)
    (hne : tx ≠ []) (hq : ∀ r ∈ tx, 1 ≤ r.quantity) (hb : 0 < budget) :
    reorder_plan tx budget = spec_reorder_plan_rounded tx budget := by
  rw [reorder_plan_eq_nobreak tx budget hb.le]
  show reorderGoNB (sku_rank tx) budget [] = spec_reorder_plan_rounded tx budget
  rw [reorderGoNB_eq_specGoR (sku_rank tx) budget []
    (fun s hs => sku_rank_mem_facts hne hq hs)]
  show ([] ++ (specGoR (sku_rank tx) budget).1, (specGoR (sku_rank tx) budget).2) = _
  rw [List.nil_append]
  rfl

/-- C1 witness: the amended equality at the concrete one-SKU view and
budget 10. -/
theorem reorder_plan_eq_spec_greedy_rounded_witness :
    ceTx ≠ [] ∧ reorder_plan ceTx 10 = spec_reorder_plan_rounded ceTx 10 :=
  ⟨by decide,
   reorder_plan_eq_spec_greedy_rounded ceTx 10 (by decide) (by decide) (by norm_num)⟩

/-- A stable insertion sort of three elements, written out as nested
comparisons. -/
theorem insertionSort_three {α : Type} (r : α → α → Prop) [DecidableRel r] (a b c : α) :
    List.insertionSort r [a, b, c] =
      if r b c then
        (if r a b then [a, b, c] else if r a c then [b, a, c] else [b, c, a])
      else
        (if r a c then [a, c, b] else if r a b then [c, a, b] else [c, b, a]) := by
  by_cases h1 : r b c
  · by_cases h2 : r a b
    · simp [List.insertionSort, List.orderedInsert, h1, h2]
    · by_cases h3 : r a c
      · simp [List.insertionSort, List.orderedInsert, h1, h2, h3]
      · simp [List.insertionSort, List.orderedInsert, h1, h2, h3]
  · by_cases h3 : r a c
    · simp [List.insertionSort, List.orderedInsert, h1, h3]
    · by_cases h2 : r a b
      · simp [List.insertionSort, List.orderedInsert, h1, h2, h3]
      · simp [List.insertionSort, List.orderedInsert, h1, h2, h3]

/-- C4: the drain ranking has exactly the three category entries
(discounts = sum of `discount`, refunds = sum of `refund_amount`,
processor fees = sum of `processor_fees`), sorted descending by
amount, and the sort is stable: categories with equal amounts keep
their original order (discounts, refunds, processor_fees). -/
theorem drain_ranking_sorted_stable (tx : List ETxRow) (rf : List Refund) (po : List Payout) :
    (drain_ranking tx rf po).length = 3 ∧
    (drain_ranking tx rf po).Sorted drainGe ∧
    (drain_ranking tx rf po).Perm
      [⟨.discounts, totalDiscounts tx⟩, ⟨.refunds, totalRefunds rf⟩,
       ⟨.processor_fees, totalFees po⟩] ∧
    (totalDiscounts tx = totalRefunds rf →
      ((drain_ranking tx rf po).map DrainEntry.category).indexOf .discounts <
        ((drain_ranking tx rf po).map DrainEntry.category).indexOf .refunds) ∧
    (totalRefunds rf = totalFees po →
      ((drain_ranking tx rf po).map DrainEntry.category).indexOf .refunds <
        ((drain_ranking tx rf po).map DrainEntry.category).indexOf .processor_fees) ∧
    (totalDiscounts tx = totalFees po →
      ((drain_ranking tx rf po).map DrainEntry.category).indexOf .discounts <
        ((drain_ranking tx rf po).map DrainEntry.category).indexOf .processor_fees) := by
  refine ⟨?_, ?_, ?_, ?_, ?_, ?_⟩
  · unfold drain_ranking
    rw [List.length_insertionSort]
    rfl
  · exact List.sorted_insertionSort drainGe _
  · exact List.perm_insertionSort drainGe _
  · intro h
    unfold drain_ranking
    rw [insertionSort_three]
    split_ifs <;>
      first
        | (simp only [List.map]; decide)
        | (exfalso; simp only [drainGe] at *; linarith)
  · intro h
    unfold drain_ranking
    rw [insertionSort_three]
    split_ifs <;>
      first
        | (simp only [List.map]; decide)
        | (exfalso; simp only [drainGe] at *; linarith)
  · intro h
    unfold drain_ranking
    rw [insertionSort_three]
    split_ifs <;>
      first
        | (simp only [List.map]; decide)
        | (exfalso; simp only [drainGe] at *; linarith)

unseal Rat.add Rat.mul Rat.sub Rat.inv in
/-- C4 witness: on a view whose discounts total 5, with refunds
totalling 5 and fees 3, the ranking has 3 entries and the tied
discounts entry precedes the refunds entry. -/
theorem drain_ranking_sorted_stable_witness :
    (drain_ranking [etxD] [refundA] [payoutA]).length = 3 ∧
    ((drain_ranking [etxD] [refundA] [payoutA]).map DrainEntry.category).indexOf .discounts <
      ((drain_ranking [etxD] [refundA] [payoutA]).map DrainEntry.category).indexOf .refunds :=
  ⟨(drain_ranking_sorted_stable [etxD] [refundA] [payoutA]).1,
   (drain_ranking_sorted_stable [etxD] [refundA] [payoutA]).2.2.2.1 (by decide)⟩

/-- C5: every SKU group of `cash_eaters` carries
`margin_pct = gp / revenue` when `revenue > 0` and `margin_pct = 0`
when `revenue ≤ 0`; in the embedding the value is a total rational in
all cases (no NaN/Infinity and no exception — the `np.where` guard
selects `0.0` for the non-positive-revenue branch). -/
theorem margin_pct_division_guard (tx : List ETxRow) (s : SkuMargin) (hs : s ∈ skuMargins tx) :
    (0 < s.revenue → s.margin_pct = s.gp / s.revenue) ∧
    (s.revenue ≤ 0 → s.margin_pct = 0) := by
  obtain ⟨k, hk, hmk⟩ := List.mem_map.mp hs
  constructor
  · intro h
    rw [← hmk] at h ⊢
    simp only [mkSkuMargin] at h ⊢
    rw [if_pos h]
  · intro h
    rw [← hmk] at h ⊢
    simp only [mkSkuMargin] at h ⊢
    rw [if_neg (not_lt.mpr h)]

unseal Rat.add Rat.mul Rat.sub Rat.inv in
/-- C5 witness: the one-SKU view has a group with revenue 2 > 0 whose
`margin_pct` equals `gp / revenue`. -/
theorem margin_pct_division_guard_witness :
    (mkSkuMargin [etxA] ⟨1, 1⟩).margin_pct =
      (mkSkuMargin [etxA] ⟨1, 1⟩).gp / (mkSkuMargin [etxA] ⟨1, 1⟩).revenue :=
  (margin_pct_division_guard [etxA] (mkSkuMargin [etxA] ⟨1, 1⟩) (by decide)).1 (by decide)

theorem round2_round0_mul (x y : ℚ) : round2 (round0 x * round2 y) = round0 x * round2 y := by
  apply round2_eq_self_of_cents
  refine ⟨rhe x * rhe (100 * y), ?_⟩
  unfold round0 round2
  push_cast
  ring

/-- C6: on a nonempty view, the Clearance Estimator takes the bottom
`max 1 (n / 5)` SKUs of the ascending `qty_per_day` ranking (at least
one), computes per slow mover
`extra_units = round(qty_per_day * 7 * (lift - 1))` with `lift = 1.5`,
`discounted_price = round(median_unit_price * (1 - 0.20), 2)` and
`extra_cash = extra_units * discounted_price` (the code's final
2-decimal rounding of `extra_cash` is the identity, since it rounds a
whole number of cents), and returns
`total_extra_cash = sum of extra_cash over the slow movers` exactly. -/
theorem free_up_cash_spec (tx : List ETxRow) (hne : tx ≠ []) :
    (free_up_cash tx).1.length = max 1 ((fuSkuDaily tx).length / 5) ∧
    1 ≤ (free_up_cash tx).1.length ∧
    (free_up_cash tx).1 =
      (((fuSkuDaily tx).insertionSort slowLe).take (slowCut (fuSkuDaily tx).length)).map
        (mkSlowMover tx) ∧
    (∀ m ∈ (free_up_cash tx).1,
      m.discount_rate = 1/5 ∧ m.assumed_lift = 3/2 ∧
      m.extra_units = round0 (m.qty_per_day * 7 * (m.assumed_lift - 1)) ∧
      m.price = medianPrice tx m.product_id ∧
      m.discounted_price = round2 (m.price * (1 - m.discount_rate)) ∧
      m.extra_cash_inflow = m.extra_units * m.discounted_price) ∧
    (free_up_cash tx).2 = ((free_up_cash tx).1.map SlowMover.extra_cash_inflow).sum := by
  have hn : 1 ≤ (fuSkuDaily tx).length := by
    unfold fuSkuDaily nameKeys
    rw [List.length_map, List.length_insertionSort]
    have hmap : (tx.map (fun r => NameKey.mk r.product_id r.product_name)) ≠ [] := by
      intro hmap
      exact hne (List.map_eq_nil_iff.mp hmap)
    have hd : (tx.map fun r => NameKey.mk r.product_id r.product_name).dedup ≠ [] := by
      rw [Ne, List.dedup_eq_nil]
      exact hmap
    exact List.length_pos.mpr hd
  have hcut : slowCut (fuSkuDaily tx).length ≤ (fuSkuDaily tx).length := by
    unfold slowCut
    exact max_le hn (Nat.div_le_self _ _)
  have hlen : (free_up_cash tx).1.length = slowCut (fuSkuDaily tx).length := by
    show (slow_movers tx).length = _
    unfold slow_movers
    rw [List.length_map, List.length_take, List.length_insertionSort]
    exact min_eq_left hcut
  refine ⟨hlen, ?_, rfl, ?_, rfl⟩
  · rw [hlen]
    exact le_max_left _ _
  · intro m hm
    obtain ⟨s, hs, hms⟩ := List.mem_map.mp hm
    refine ⟨?_, ?_, ?_, ?_, ?_, ?_⟩ <;> rw [← hms]
    · rfl
    · rfl
    · rfl
    · rfl
    · rfl
    · show (mkSlowMover tx s).extra_cash_inflow = _
      simp only [mkSlowMover]
      exact round2_round0_mul _ _

/-- C6 witness: the aggregate round-trip and the cut size at the
concrete one-SKU view. -/
theorem free_up_cash_spec_witness :
    (free_up_cash [etxA]).1.length = max 1 ((fuSkuDaily [etxA]).length / 5) ∧
    (free_up_cash [etxA]).2 = ((free_up_cash [etxA]).1.map SlowMover.extra_cash_inflow).sum :=
  ⟨(free_up_cash_spec [etxA] (by decide)).1,
   (free_up_cash_spec [etxA] (by decide)).2.2.2.2⟩

/-- Every line the greedy loop ever appends names the `product_id` of
some ranked SKU. -/
theorem reorderGo_lines_sources (m : ℚ) : ∀ (l : List SkuDaily) (r : ℚ) (p : List PlanLine),
    ∀ ln ∈ (reorderGo m l r p).1, ln ∈ p ∨ ∃ s ∈ l, ln.product_id = s.product_id := by
  intro l
  induction l with
  | nil =>
    intro r p ln hln
    exact Or.inl hln
  | cons row rest ih =>
    intro r p ln hln
    have hlift : (ln ∈ p ∨ ∃ s ∈ rest, ln.product_id = s.product_id) →
        (ln ∈ p ∨ ∃ s ∈ row :: rest, ln.product_id = s.product_id) := by
      rintro (h | ⟨s, hs, hid⟩)
      · exact Or.inl h
      · exact Or.inr ⟨s, List.mem_cons_of_mem _ hs, hid⟩
    have happ : ∀ q, ln ∈ p ++ [mkPlanLine row q] → ln ∈ p ∨ ln.product_id = row.product_id := by
      intro q hq
      rcases List.mem_append.mp hq with h | h
      · exact Or.inl h
      · rw [List.mem_singleton.mp h]
        exact Or.inr rfl
    by_cases hc : row.cogs ≤ 0
    · simp only [reorderGo, if_pos hc] at hln
      exact hlift (ih r p ln hln)
    · by_cases hb : 0 < buyUnits row r
      · by_cases hbreak : r - buyUnits row r * row.cogs < m
        · simp only [reorderGo, if_neg hc, if_pos hb, if_pos hbreak] at hln
          rcases happ _ hln with h | h
          · exact Or.inl h
          · exact Or.inr ⟨row, List.mem_cons_self _ _, h⟩
        · simp only [reorderGo, if_neg hc, if_pos hb, if_neg hbreak] at hln
          rcases ih _ _ ln hln with h | ⟨s, hs, hid⟩
          · rcases happ _ h with h2 | h2
            · exact Or.inl h2
            · exact Or.inr ⟨row, List.mem_cons_self _ _, h2⟩
          · exact Or.inr ⟨s, List.mem_cons_of_mem _ hs, hid⟩
      · by_cases hbreak : r < m
        · simp only [reorderGo, if_neg hc, if_neg hb, if_pos hbreak] at hln
          exact Or.inl hln
        · simp only [reorderGo, if_neg hc, if_neg hb, if_neg hbreak] at hln
          exact hlift (ih _ _ ln hln)

/-- Every ranked SKU of `reorder_plan (enrich txs pm)` has a matching
product-master row: a `product_id` that fails the left join has a null
`cogs`, gets no group key, and never reaches the ranking. -/
theorem sku_rank_pid_from_products {txs : List TxRow} {pm : List Product} {s : SkuDaily}
    (hs : s ∈ sku_rank (enrich txs pm)) : ∃ p ∈ pm, p.product_id = s.product_id := by
  have hs2 : s ∈ sku_daily (enrich txs pm) := (List.mem_insertionSort rankGe).mp hs
  obtain ⟨k, hk, hmk⟩ := List.mem_map.mp hs2
  have hkmem : k ∈ ((enrich txs pm).filterMap ETxRow.skuKey?).dedup :=
    (List.mem_insertionSort SkuKey.le).mp hk
  obtain ⟨r, hr, hrk⟩ := List.mem_filterMap.mp (List.mem_dedup.mp hkmem)
  obtain ⟨c, hc, hkey⟩ := Option.map_eq_some'.mp hrk
  obtain ⟨row, _, hrdef⟩ := List.mem_map.mp hr
  have hcogs : (pm.find? (fun p => decide (p.product_id = row.product_id))).map Product.cogs =
      some c := by
    rw [← hc, ← hrdef]
  obtain ⟨q, hfind, _⟩ := Option.map_eq_some'.mp hcogs
  have hq_mem : q ∈ pm := List.mem_of_find?_eq_some hfind
  have hq_id : q.product_id = row.product_id := by
    have hq := List.find?_some hfind
    simpa using hq
  have hsid : s.product_id = k.product_id := by
    rw [← hmk]
    simp only [mkSkuDaily]
  have hkid : k.product_id = r.product_id := by rw [← hkey]
  have hrid : r.product_id = row.product_id := by rw [← hrdef]
  exact ⟨q, hq_mem, by rw [hq_id, hsid, hkid, hrid]⟩

/-- C10: line items whose `product_id` has no product-master row are
silently excluded from the reorder plan: the left join leaves their
`cogs` null, the `(product_id, product_name, cogs)` grouping drops the
null-keyed rows, and no plan line can carry that `product_id` — the
SKU is treated as absent, not as a `cogs ≤ 0` SKU and not as an
error. -/
theorem unmatched_product_excluded_from_plan (txs : List TxRow) (pm : List Product)
    (budget : ℚ) (pid : ℕ) (h : ∀ p ∈ pm, p.product_id ≠ pid) :
    ∀ ln ∈ (reorder_plan (enrich txs pm) budget).1, ln.product_id ≠ pid := by
  intro ln hln
  rcases reorderGo_lines_sources (minCogs (sku_rank (enrich txs pm)))
      (sku_rank (enrich txs pm)) budget [] ln hln with hmem | ⟨s, hs, hid⟩
  · exact absurd hmem (List.not_mem_nil ln)
  · obtain ⟨p, hp, hpid⟩ := sku_rank_pid_from_products hs
    rw [hid, ← hpid]
    exact h p hp

unseal Rat.add Rat.mul Rat.sub Rat.inv in
/-- C10 witness: with a transactions table holding products 1 and 2
and a product master knowing only product 1, the plan's single line —
for product 1 — is not for the unmatched product 2. -/
theorem unmatched_product_excluded_from_plan_witness :
    (PlanLine.mk 1 1 (17/50) 5 (42/25) (208/25)).product_id ≠ 2 :=
  unmatched_product_excluded_from_plan [txRowA, txRowC] [productA] 10 2 (by decide)
    (PlanLine.mk 1 1 (17/50) 5 (42/25) (208/25)) (by decide)

end AiPos
